import Mathlib

/-!
Verification development for the hierarchical configuration and
credential-resolution subsystem of the `pspace` command-line client.

The embedding models:
* `src/lib/config.ts` — the schema-validated config store (`read`, `write`,
  `get`, `set`, `remove`, `clear`, the zod `schema`, `getKeys` and `paths`);
* the `act` higher-order action wrapper (bundled with
  `src/commands/signup/mod.ts`) — the credential resolver that combines the
  `--api-key` override, the `PAPERSPACE_API_KEY` environment variable and the
  per-team credential store;
* the external collaborators that are not part of the source tree
  (`credentials.ts`, `env.ts`, `util.ts`'s `closest`), modelled from the
  specification.

Machine state is passed explicitly: a `St` record holds the config file, the
parent directory flag, the credential store and the process environment.
Fallible operations return `Except SchemaErr α × St`, so that the state after
a thrown error remains observable.
-/

namespace PspaceCfg

/-- A structured (YAML-equivalent) runtime value: what `parse` from
`encoding/yaml.ts` produces for the config file, and what plain objects built
by `object-path-immutable` look like at runtime. -/
inductive RVal where
  | rnull : RVal
  | rstr : String → RVal
  | rint : Int → RVal
  | robj : List (String × RVal) → RVal

/-- Association-list lookup (JS property access / map lookup). -/
def lookupAssoc {α : Type} : List (String × α) → String → Option α
  | [], _ => none
  | (k, v) :: rest, key => if k == key then some v else lookupAssoc rest key

/-- Association-list upsert: an existing key is updated in place, a new key is
appended at the end (JS object key-order semantics). -/
def upsertAssoc {α : Type} : List (String × α) → String → α → List (String × α)
  | [], key, v => [(key, v)]
  | (k, w) :: rest, key, v =>
    if k == key then (key, v) :: rest else (k, w) :: upsertAssoc rest key v

/-- Association-list removal (JS `delete obj[key]`). -/
def removeAssoc {α : Type} : List (String × α) → String → List (String × α)
  | [], _ => []
  | (k, w) :: rest, key =>
    if k == key then removeAssoc rest key else (k, w) :: removeAssoc rest key

/-- JS truthiness of a string: the empty string is falsy. -/
def truthyStr (s : String) : Bool := s != ""

/-- JS truthiness of a possibly-absent string: `undefined` and `""` are falsy. -/
def truthyOptStr : Option String → Bool
  | none => false
  | some s => truthyStr s

namespace credentials

/-- Modelled from the spec: the CredentialStore (`src/lib/credentials.ts` is
not under `src/`). The store is a sequence of (team, secret) pairs; `get`
returns the stored secret or absent. -/
def get (store : List (String × String)) (team : String) : Option String :=
  lookupAssoc store team

/-- Modelled from the spec: `list` returns the team identifiers in store
order and leaks no secrets. -/
def list (store : List (String × String)) : List String :=
  store.map Prod.fst

end credentials

/-- Modelled from the spec: the FuzzyMatcher's edit distance (`closest` lives
in `src/lib/util.ts`, which is not under `src/`): the standard Levenshtein
distance between two character lists. -/
def lev : List Char → List Char → Nat
  | [], ys => ys.length
  | xs, [] => xs.length
  | x :: xs, y :: ys =>
    if x = y then lev xs ys
    else 1 + min (lev xs (y :: ys)) (min (lev (x :: xs) ys) (lev xs ys))
termination_by xs ys => xs.length + ys.length
decreasing_by all_goals (simp only [List.length_cons]; omega)

/-- Modelled from the spec: `closest(candidates, input)` returns the candidate
with minimum Levenshtein distance to `input`, ties broken by first occurrence
in the candidate sequence, absent when there are no candidates. -/
def closest (candidates : List String) (input : String) : Option String :=
  candidates.foldl
    (fun best c =>
      match best with
      | none => some c
      | some b =>
        if lev c.toList input.toList < lev b.toList input.toList then some c
        else best)
    none

/-- ANSI bold (src/lib/ansi.ts re-exports cliffy's `colors.bold`). -/
def bold (s : String) : String := "\x1b[1m" ++ s ++ "\x1b[22m"

/-- The parsed config document, `z.infer<typeof schema>`:
`version` is the literal 1 and `team` is a nullable string. -/
structure Config where
  version : Int
  team : Option String
  deriving DecidableEq, Repr

/-- An error thrown by `schema.parseAsync`: either a zod validation issue
(wrong shape or types) or the `ConfigError` thrown by the `team` transform. -/
inductive SchemaErr where
  | zodErr : SchemaErr
  | configErr : String → SchemaErr
  deriving DecidableEq, Repr

/-- The message of the `ConfigError` thrown when `team` has no matching
credential entry, built exactly as in the `team` transform of
`src/lib/config.ts`: a "did you mean" hint is inserted only when
`closest(teams, value)` is truthy. -/
def teamNotFoundMsg (store : List (String × String)) (value : String) : String :=
  let teams := credentials.list store
  let didYouMeanValue := closest teams value
  let didYouMean :=
    if truthyOptStr didYouMeanValue then
      "\n\nDid you mean " ++ bold (didYouMeanValue.getD "") ++ "?"
    else ""
  "A team named \"" ++ value ++ "\" was not found in your credentials file. " ++
    didYouMean ++
    "\nAre you logged in? Try running \"" ++ bold "pspace login" ++ "\" first."

/-- Parsing of the `version` field: `z.literal(1).default(1)` — absent
defaults to 1, present must be the number 1. -/
def parseVersion : Option RVal → Except SchemaErr Int
  | none => .ok 1
  | some (.rint 1) => .ok 1
  | some _ => .error .zodErr

/-- Parsing of the `team` field:
`z.string().transform(...).nullable().default(null)` — absent defaults to
null, null short-circuits, a string is accepted exactly when
`credentials.get` returns a truthy secret, otherwise the transform throws a
`ConfigError`; any other type is a zod issue. -/
def parseTeam (store : List (String × String)) :
    Option RVal → Except SchemaErr (Option String)
  | none => .ok none
  | some .rnull => .ok none
  | some (.rstr value) =>
    if truthyOptStr (credentials.get store value) then .ok (some value)
    else .error (.configErr (teamNotFoundMsg store value))
  | some _ => .error .zodErr

/-- `schema.parseAsync` of `src/lib/config.ts`: the input must be an object;
both fields are parsed (zod collects issues across keys, but an exception
thrown by the `team` transform preempts the aggregated `ZodError`). -/
def schemaParse (store : List (String × String)) (v : RVal) :
    Except SchemaErr Config :=
  match v with
  | .robj fields =>
    match parseVersion (lookupAssoc fields "version"),
          parseTeam store (lookupAssoc fields "team") with
    | _, .error (.configErr m) => .error (.configErr m)
    | .error e, _ => .error e
    | _, .error e => .error e
    | .ok ver, .ok tm => .ok ⟨ver, tm⟩
  | _ => .error .zodErr

/-- The default document: the result of `schema.parseAsync({ team: null })`. -/
def defaultConfig : Config := ⟨1, none⟩

/-- Serialization of a parsed document back to a structured value (the object
zod returns, in shape key order, which `stringify` writes to disk). -/
def toRVal (c : Config) : RVal :=
  .robj [("version", .rint c.version),
         ("team", match c.team with | none => .rnull | some t => .rstr t)]

/-- The canonical on-disk default document. -/
def defaultRVal : RVal := toRVal defaultConfig

/-- Content of the config file: either unparseable text or a parsed value
(the YAML layer is modelled at the parsed level). -/
inductive FileVal where
  | corrupt : FileVal
  | parsed : RVal → FileVal

/-- Machine state threaded through every operation: whether the config
directory exists, the config file (absent, corrupt, or parsed), the
credential store, and the process environment. -/
structure St where
  dirExists : Bool
  file : Option FileVal
  creds : List (String × String)
  env : List (String × String)

namespace env

/-- Modelled from the spec: process environment state (`src/lib/env.ts` is
not under `src/`): `get` reads a variable. -/
def get (e : List (String × String)) (key : String) : Option String :=
  lookupAssoc e key

/-- Modelled from the spec: `set` upserts an environment variable. -/
def set (e : List (String × String)) (key value : String) :
    List (String × String) :=
  upsertAssoc e key value

end env

/-- Dotted-path access on plain values (`obj.get` of object-path-immutable):
descend key by key, absent when a segment is missing or not an object. -/
def objGet : List String → RVal → Option RVal
  | [], v => some v
  | key :: rest, .robj fields =>
    match lookupAssoc fields key with
    | some child => objGet rest child
    | none => none
  | _ :: _, _ => none

/-- Immutable dotted-path update (`obj.set` of object-path-immutable): place
the value at the path, materializing empty objects along missing segments. -/
def objSet : List String → RVal → RVal → RVal
  | [], _, v => v
  | key :: rest, doc, v =>
    let fields := match doc with | .robj fs => fs | _ => []
    let child := (lookupAssoc fields key).getD (.robj [])
    .robj (upsertAssoc fields key (objSet rest child v))

/-- Immutable dotted-path deletion (`obj.del` of object-path-immutable):
remove the field at the path; a no-op when the path does not resolve. -/
def objDel : List String → RVal → RVal
  | [], doc => doc
  | [key], doc =>
    match doc with
    | .robj fields => .robj (removeAssoc fields key)
    | _ => doc
  | key :: rest, doc =>
    match doc with
    | .robj fields =>
      match lookupAssoc fields key with
      | some child => .robj (upsertAssoc fields key (objDel rest child))
      | none => doc
    | _ => doc

/-- Splitting a character list at every `.` (JS `String.prototype.split`):
the empty input yields one empty segment. -/
def splitSegs : List Char → List (List Char)
  | [] => [[]]
  | c :: rest =>
    let segs := splitSegs rest
    if c = '.' then [] :: segs
    else
      match segs with
      | s :: ss => (c :: s) :: ss
      | [] => [[c]]

/-- Splitting a dotted config path into its segments, as
object-path-immutable does internally with `path.split(".")`. -/
def splitPath (path : String) : List String :=
  (splitSegs path.toList).map (fun seg => String.mk seg)

namespace config

/-- `write` of `src/lib/config.ts`: ensure the config directory exists
(`mkdir` precedes everything), then revalidate the document with
`schema.parseAsync` and persist the canonicalized result; a validation error
propagates and nothing is written to the file. -/
def write (doc : RVal) (s : St) : Except SchemaErr Unit × St :=
  let s1 : St := { s with dirExists := true }
  match schemaParse s1.creds doc with
  | .error e => (.error e, s1)
  | .ok c => (.ok (), { s1 with file := some (.parsed (toRVal c)) })

/-- `read` of `src/lib/config.ts`: a missing file yields freshly parsed
defaults without writing; an existing file is parsed and validated inside a
single `try`, so any failure — unparseable YAML or a schema/`ConfigError`
validation failure alike — is caught, defaults are parsed, persisted via
`write`, and returned. -/
def read (s : St) : Except SchemaErr Config × St :=
  match s.file with
  | none =>
    match schemaParse s.creds (.robj [("team", .rnull)]) with
    | .ok c => (.ok c, s)
    | .error e => (.error e, s)
  | some .corrupt =>
    match schemaParse s.creds (.robj [("team", .rnull)]) with
    | .ok nextConfig =>
      match write (toRVal nextConfig) s with
      | (.ok _, s') => (.ok nextConfig, s')
      | (.error e, s') => (.error e, s')
    | .error e => (.error e, s)
  | some (.parsed v) =>
    match schemaParse s.creds v with
    | .ok c => (.ok c, s)
    | .error _ =>
      match schemaParse s.creds (.robj [("team", .rnull)]) with
      | .ok nextConfig =>
        match write (toRVal nextConfig) s with
        | (.ok _, s') => (.ok nextConfig, s')
        | (.error e, s') => (.error e, s')
      | .error e => (.error e, s)

/-- `get` of `src/lib/config.ts`: `read`, then resolve the path with
`obj.get`. -/
def get (path : String) (s : St) : Except SchemaErr (Option RVal) × St :=
  match read s with
  | (.ok c, s') => (.ok (objGet (splitPath path) (toRVal c)), s')
  | (.error e, s') => (.error e, s')

/-- `set` of `src/lib/config.ts`: `read`, apply the immutable update, then
`write` the result. -/
def set (path : String) (value : RVal) (s : St) : Except SchemaErr Unit × St :=
  match read s with
  | (.ok c, s') => write (objSet (splitPath path) (toRVal c) value) s'
  | (.error e, s') => (.error e, s')

/-- `remove` of `src/lib/config.ts`: `read`, delete the field at the path,
then `write` the result. -/
def remove (path : String) (s : St) : Except SchemaErr Unit × St :=
  match read s with
  | (.ok c, s') => write (objDel (splitPath path) (toRVal c)) s'
  | (.error e, s') => (.error e, s')

/-- `clear` of `src/lib/config.ts`: write freshly parsed defaults. -/
def clear (s : St) : Except SchemaErr Unit × St :=
  match schemaParse s.creds (.robj [("team", .rnull)]) with
  | .ok c => write (toRVal c) s
  | .error e => (.error e, s)

end config

/-- The global CLI flags consumed by `act` (`--debug`, `--api-key`,
`--api-url`), each absent when not supplied. -/
structure Opt where
  debug : Option Bool
  apiKey : Option String
  apiUrl : Option String

/-- JS truthiness of the value `config.get("team")` returns (`null`, `""` and
`undefined` are falsy). -/
def rvalTruthy : Option RVal → Bool
  | none => false
  | some .rnull => false
  | some (.rstr s) => s != ""
  | some (.rint n) => n != 0
  | some (.robj _) => true

/-- The string content of the `team` value in the truthy case. -/
def rvalAsString : Option RVal → String
  | some (.rstr s) => s
  | _ => ""

/-- The environment writes `act` performs from its flags before resolving a
credential: `--debug` always when supplied, `--api-key`/`--api-url` only when
truthy. -/
def applyOverrides (opt : Opt) (s : St) : St :=
  let s1 := match opt.debug with
    | some b => { s with env := env.set s.env "DEBUG" (if b then "true" else "false") }
    | none => s
  let s2 := if truthyOptStr opt.apiKey then
      { s1 with env := env.set s1.env "PAPERSPACE_API_KEY" (opt.apiKey.getD "") }
    else s1
  if truthyOptStr opt.apiUrl then
    { s2 with env := env.set s2.env "PAPERSPACE_API_URL" (opt.apiUrl.getD "") }
  else s2

/-- The credential-resolution phase of `act` (bundled with
`src/commands/signup/mod.ts`): apply the flag overrides to the environment;
then, if `PAPERSPACE_API_KEY` is still falsy, load the config's `team` and,
when it is truthy, write its stored credential into `PAPERSPACE_API_KEY`.
Running the wrapped action and printing its result are outside the modelled
core. `credentials.get` is only consulted for a team that a validated `read`
just returned, so it is defined there; its absent case is modelled as the
empty string. -/
def act (opt : Opt) (s : St) : Except SchemaErr Unit × St :=
  let s3 := applyOverrides opt s
  if truthyOptStr (env.get s3.env "PAPERSPACE_API_KEY") then (.ok (), s3)
  else
    match config.get "team" s3 with
    | (.ok team, s4) =>
      if rvalTruthy team then
        (.ok (), { s4 with
          env := env.set s4.env "PAPERSPACE_API_KEY"
            ((credentials.get s4.creds (rvalAsString team)).getD "") })
      else (.ok (), s4)
    | (.error e, s4) => (.error e, s4)

/-! ### The schema tree and path enumeration

`getKeys` of `src/lib/config.ts` walks a zod schema object. A zod node is
modelled as a tree: leaves (string/literal types), the wrapper types
`ZodOptional`, `ZodDefault`, `ZodNullable` and `ZodEffects` (a `.transform`),
and nested objects. -/

/-- A zod schema node, as `getKeys` sees it. -/
inductive ZNode where
  | leaf : ZNode
  | zoptional : ZNode → ZNode
  | zdefault : ZNode → ZNode
  | znullable : ZNode → ZNode
  | zeffects : ZNode → ZNode
  | zobject : List (String × ZNode) → ZNode

/-- zod's `isOptional()`: whether the node accepts `undefined`.
`ZodOptional` and `ZodDefault` do; `ZodNullable` delegates to its inner type;
leaves, transforms of leaves, and objects do not. -/
def isOptionalZ : ZNode → Bool
  | .zoptional _ => true
  | .zdefault _ => true
  | .znullable inner => isOptionalZ inner
  | _ => false

/-- zod's `_def.innerType` for the wrapper types; on other nodes the property
is never read by `getKeys` (it is only taken when `isOptional()` holds). -/
def innerTypeZ : ZNode → ZNode
  | .zoptional inner => inner
  | .zdefault inner => inner
  | .znullable inner => inner
  | n => n

mutual

/-- One entry of `getKeys` of `src/lib/config.ts`: unwrap one wrapper layer
when `isOptional()` holds, then recurse when the result has a `shape` (is an
object), joining nested keys with `.`, and otherwise emit the key. The three
recursive arms are exactly the cases in which the single unwrap exposes an
object (the lemma `getKeysEntry_eq` below restates this in the literal
`isOptional()`/`_def.innerType` form of the source). -/
def getKeysEntry : String → ZNode → List String
  | key, .zobject shape2 =>
    (getKeys shape2).map (fun subKey => key ++ "." ++ subKey)
  | key, .zoptional (.zobject shape2) =>
    (getKeys shape2).map (fun subKey => key ++ "." ++ subKey)
  | key, .zdefault (.zobject shape2) =>
    (getKeys shape2).map (fun subKey => key ++ "." ++ subKey)
  | key, _ => [key]

/-- `getKeys` of `src/lib/config.ts`, over the keys of a shape in
declaration order. -/
def getKeys : List (String × ZNode) → List String
  | [] => []
  | (key, node) :: rest => getKeysEntry key node ++ getKeys rest

end

/-- The shape of the config schema of `src/lib/config.ts`:
`version: z.literal(1).default(1)` and
`team: z.string().transform(...).describe(...).nullable().default(null)`. -/
def schemaShape : List (String × ZNode) :=
  [("version", .zdefault .leaf),
   ("team", .zdefault (.znullable (.zeffects .leaf)))]

/-- `paths` of `src/lib/config.ts`: the enumerated keys minus `version`. -/
def pathsOf (shape : List (String × ZNode)) : List String :=
  (getKeys shape).filter (fun key => key != "version")

/-- The exported `paths` constant: the addressable config paths. -/
def paths : List String := pathsOf schemaShape

mutual

/-- The leaf dotted-paths of a schema tree: every wrapper is transparent
except `ZodEffects`, whose content is never addressable; each leaf contributes
exactly one dotted path, intermediate object nodes contribute none. -/
def leafPathsEntry : String → ZNode → List String
  | key, .leaf => [key]
  | key, .zoptional inner => leafPathsEntry key inner
  | key, .zdefault inner => leafPathsEntry key inner
  | key, .znullable inner => leafPathsEntry key inner
  | key, .zeffects _ => [key]
  | key, .zobject shape =>
    (leafPathsShape shape).map (fun subKey => key ++ "." ++ subKey)

/-- The leaf dotted-paths of a shape, in declaration order. -/
def leafPathsShape : List (String × ZNode) → List String
  | [] => []
  | (key, node) :: rest => leafPathsEntry key node ++ leafPathsShape rest

end

/-! ### Basic lemmas about the schema parser and the store operations -/

/-- A document the schema accepted: `version` is 1 and `team` is null or a
team whose stored credential was truthy at validation time. -/
def teamValidated (store : List (String × String)) (c : Config) : Prop :=
  c.team = none ∨
    ∃ t, c.team = some t ∧ truthyOptStr (credentials.get store t) = true

theorem parseVersion_ok {o : Option RVal} {n : Int}
    (h : parseVersion o = .ok n) : n = 1 := by
  unfold parseVersion at h
  split at h <;> simp_all

theorem parseTeam_ok {store : List (String × String)} {o : Option RVal}
    {tm : Option String} (h : parseTeam store o = .ok tm) :
    tm = none ∨ ∃ t, tm = some t ∧ truthyOptStr (credentials.get store t) = true := by
  unfold parseTeam at h
  split at h
  · exact Or.inl (by cases h; rfl)
  · exact Or.inl (by cases h; rfl)
  · split at h
    · cases h
      exact Or.inr ⟨_, rfl, by assumption⟩
    · cases h
  · cases h

theorem schemaParse_ok {store : List (String × String)} {v : RVal} {c : Config}
    (h : schemaParse store v = .ok c) :
    c.version = 1 ∧ teamValidated store c := by
  unfold schemaParse at h
  split at h
  · split at h <;> try cases h
    case _ ver tm hver htm =>
      exact ⟨parseVersion_ok hver, parseTeam_ok htm⟩
  · cases h

/-- Validated documents re-parse to themselves (write canonicalization is the
identity on documents that already passed the schema). -/
theorem schemaParse_toRVal {store : List (String × String)} {c : Config}
    (h1 : c.version = 1) (h2 : teamValidated store c) :
    schemaParse store (toRVal c) = .ok c := by
  rcases c with ⟨ver, tm⟩
  rcases h2 with h2 | ⟨t, h2, ht⟩ <;> simp only at h1 h2 <;> subst h1 <;> subst h2
  · simp [schemaParse, toRVal, lookupAssoc, parseVersion, parseTeam]
  · simp [schemaParse, toRVal, lookupAssoc, parseVersion, parseTeam, ht]

theorem parseDefaults (store : List (String × String)) :
    schemaParse store (.robj [("team", .rnull)]) = .ok defaultConfig := rfl

theorem write_ok {doc : RVal} {s : St} {c : Config}
    (h : schemaParse s.creds doc = .ok c) :
    config.write doc s =
      (.ok (), { s with dirExists := true, file := some (.parsed (toRVal c)) }) := by
  simp [config.write, h]

theorem write_err {doc : RVal} {s : St} {e : SchemaErr}
    (h : schemaParse s.creds doc = .error e) :
    config.write doc s = (.error e, { s with dirExists := true }) := by
  simp [config.write, h]

theorem write_default (s : St) :
    config.write (toRVal defaultConfig) s =
      (.ok (), { s with dirExists := true, file := some (.parsed defaultRVal) }) := rfl

theorem read_none {s : St} (h : s.file = none) :
    config.read s = (.ok defaultConfig, s) := by
  rcases s with ⟨d, f, cr, ev⟩
  subst h
  rfl

theorem read_corrupt {s : St} (h : s.file = some .corrupt) :
    config.read s =
      (.ok defaultConfig, { s with dirExists := true, file := some (.parsed defaultRVal) }) := by
  rcases s with ⟨d, f, cr, ev⟩
  subst h
  rfl

theorem read_parsed_ok {s : St} {v : RVal} {c : Config}
    (hf : s.file = some (.parsed v)) (hp : schemaParse s.creds v = .ok c) :
    config.read s = (.ok c, s) := by
  rcases s with ⟨d, f, cr, ev⟩
  subst hf
  simp_all [config.read]

theorem read_parsed_err {s : St} {v : RVal} {e : SchemaErr}
    (hf : s.file = some (.parsed v)) (hp : schemaParse s.creds v = .error e) :
    config.read s =
      (.ok defaultConfig, { s with dirExists := true, file := some (.parsed defaultRVal) }) := by
  rcases s with ⟨d, f, cr, ev⟩
  subst hf
  simp_all [config.read, parseDefaults, write_default]

/-- `read` never fails: every failure mode is recovered internally. The
returned document is schema-validated against the (unchanged) credential
store, and the environment is untouched. -/
theorem read_total (s : St) :
    ∃ c s', config.read s = (.ok c, s') ∧ c.version = 1 ∧
      teamValidated s.creds c ∧ s'.creds = s.creds ∧ s'.env = s.env := by
  match hf : s.file with
  | none =>
    exact ⟨defaultConfig, s, read_none hf, rfl, Or.inl rfl, rfl, rfl⟩
  | some .corrupt =>
    exact ⟨defaultConfig, _, read_corrupt hf, rfl, Or.inl rfl, rfl, rfl⟩
  | some (.parsed v) =>
    match hp : schemaParse s.creds v with
    | .ok c =>
      obtain ⟨h1, h2⟩ := schemaParse_ok hp
      exact ⟨c, s, read_parsed_ok hf hp, h1, h2, rfl, rfl⟩
    | .error e =>
      exact ⟨defaultConfig, _, read_parsed_err hf hp, rfl, Or.inl rfl, rfl, rfl⟩

theorem truthyOptStr_some {o : Option String}
    (h : truthyOptStr o = true) : ∃ sec, o = some sec := by
  cases o with
  | none => cases h
  | some s => exact ⟨s, rfl⟩

theorem paths_eq : paths = ["team"] := rfl

/-- Deleting `team` from a serialized document leaves only `version`. -/
theorem objDel_team (c : Config) :
    objDel (splitPath "team") (toRVal c) = .robj [("version", .rint c.version)] := by
  rcases c with ⟨ver, tm⟩
  cases tm <;> rfl

/-- A document with only `version: 1` parses to the defaults (the schema
default for `team` fills in `null`). -/
theorem schemaParse_versionOnly (store : List (String × String)) :
    schemaParse store (.robj [("version", .rint 1)]) = .ok defaultConfig := rfl

/-- The canonical default document re-parses to the defaults. -/
theorem schemaParse_defaultRVal (store : List (String × String)) :
    schemaParse store defaultRVal = .ok defaultConfig := rfl

/-! ### Claim C1 -/

/-- A config file that parses but fails schema validation: `team` is the
string "ghost" while the credential store is empty. -/
def c1State : St :=
  ⟨true, some (.parsed (.robj [("version", .rint 1), ("team", .rstr "ghost")])), [], []⟩

/-- C1, counterexample: on a file that parses as YAML but fails schema
validation (non-null team with no credential entry), `read` does not
propagate a `ConfigError` to the caller: it returns the default document and
overwrites the file with defaults, silently discarding the invalid `team`. -/
theorem c1_read_propagates_configerror_false :
    (config.read c1State).1 = .ok defaultConfig ∧
    (config.read c1State).2.file = some (.parsed defaultRVal) :=
  ⟨rfl, rfl⟩

/-- C1, amended: `read` treats a schema-validation failure exactly like a
parse failure — both are caught by the same handler, which returns freshly
parsed defaults and persists them over the invalid file (creating the config
directory if needed); no `ConfigError` escapes `read`. -/
theorem c1_read_validation_failure_recovers {s : St} {v : RVal} {e : SchemaErr}
    (hf : s.file = some (.parsed v)) (hp : schemaParse s.creds v = .error e) :
    config.read s =
      (.ok defaultConfig,
        { s with dirExists := true, file := some (.parsed defaultRVal) }) :=
  read_parsed_err hf hp

/-- C1, witness: the amended theorem applied to the concrete invalid file. -/
theorem c1_read_validation_failure_recovers_witness :
    config.read c1State =
      (.ok defaultConfig,
        { c1State with dirExists := true, file := some (.parsed defaultRVal) }) :=
  @c1_read_validation_failure_recovers c1State
    (.robj [("version", .rint 1), ("team", .rstr "ghost")])
    (.configErr (teamNotFoundMsg [] "ghost")) rfl rfl

/-! ### Claim C2 -/

/-- C2: if the config file does not exist, `read` returns the default
document (version 1, team null) and leaves the state — in particular the
file and the directory flag — completely unchanged; if the file exists but is
unparseable, `read` returns the default document and persists it over the
corrupt file; in both cases `read` succeeds. -/
theorem c2_read_missing_or_corrupt_defaults :
    (∀ s : St, s.file = none → config.read s = (.ok defaultConfig, s)) ∧
    (∀ s : St, s.file = some .corrupt →
      config.read s =
        (.ok defaultConfig,
          { s with dirExists := true, file := some (.parsed defaultRVal) })) :=
  ⟨fun _ h => read_none h, fun _ h => read_corrupt h⟩

/-- C2, witness: both branches evaluated on concrete states. -/
theorem c2_read_missing_or_corrupt_defaults_witness :
    config.read ⟨false, none, [("t1", "s1")], []⟩ =
      (.ok defaultConfig, ⟨false, none, [("t1", "s1")], []⟩) ∧
    config.read ⟨false, some .corrupt, [("t1", "s1")], []⟩ =
      (.ok defaultConfig, ⟨true, some (.parsed defaultRVal), [("t1", "s1")], []⟩) :=
  ⟨c2_read_missing_or_corrupt_defaults.1 _ rfl,
   c2_read_missing_or_corrupt_defaults.2 _ rfl⟩

/-! ### Claim C7 -/

/-- C7: for every enumerated path, `remove` succeeds, removing it twice in
succession yields exactly the resulting state of removing it once (the second
call is a no-op), and since the only enumerated path is `team`, whose schema
default is `null`, the persisted document after removal is the canonical
default document — the field is restored to `null`, not left absent. -/
theorem c7_remove_idempotent {p : String} (hp : p ∈ paths) (s : St) :
    ∃ s1, config.remove p s = (.ok (), s1) ∧
      config.remove p s1 = (.ok (), s1) ∧
      s1.file = some (.parsed defaultRVal) := by
  rw [paths_eq] at hp
  have hpe : p = "team" := List.mem_singleton.mp hp
  subst hpe
  obtain ⟨c, s', hread, h1, _h2, hcreds, _henv⟩ := read_total s
  have hdel := objDel_team c
  have hparse : schemaParse s'.creds (objDel (splitPath "team") (toRVal c)) =
      .ok defaultConfig := by
    rw [hdel, h1, hcreds]
    exact schemaParse_versionOnly s.creds
  refine ⟨{ s' with dirExists := true, file := some (.parsed defaultRVal) }, ?_, ?_, rfl⟩
  · simp [config.remove, hread, write_ok hparse]
    rfl
  · set s1 : St := { s' with dirExists := true, file := some (.parsed defaultRVal) } with hs1
    have hread1 : config.read s1 = (.ok defaultConfig, s1) :=
      read_parsed_ok rfl (schemaParse_defaultRVal s1.creds)
    have hparse1 : schemaParse s1.creds (objDel (splitPath "team") (toRVal defaultConfig)) =
        .ok defaultConfig := by
      rw [objDel_team defaultConfig]
      exact schemaParse_versionOnly s1.creds
    simp [config.remove, hread1, write_ok hparse1]
    rfl

/-- C7, witness: removal on a concrete state with a non-default team. -/
theorem c7_remove_idempotent_witness :
    ∃ s1, config.remove "team"
        ⟨true, some (.parsed (.robj [("version", .rint 1), ("team", .rstr "t1")])),
          [("t1", "s1")], []⟩ = (.ok (), s1) ∧
      config.remove "team" s1 = (.ok (), s1) ∧
      s1.file = some (.parsed defaultRVal) :=
  c7_remove_idempotent (by decide) _

/-! ### Claim C8 -/

/-- C8: for every input document that fails schema validation, `write` throws
the validation error before performing the file write: the file is untouched,
while the parent directory is still created because `mkdir` precedes
validation. -/
theorem c8_write_validation_failure_atomic {doc : RVal} {s : St} {e : SchemaErr}
    (h : schemaParse s.creds doc = .error e) :
    config.write doc s = (.error e, { s with dirExists := true }) :=
  write_err h

/-- C8, witness: writing a document with an unknown team against an empty
store fails and leaves the file as it was while creating the directory. -/
theorem c8_write_validation_failure_atomic_witness :
    config.write (.robj [("version", .rint 1), ("team", .rstr "nope")])
        ⟨false, some .corrupt, [], []⟩ =
      (.error (.configErr (teamNotFoundMsg [] "nope")),
        ⟨true, some .corrupt, [], []⟩) :=
  c8_write_validation_failure_atomic rfl

/-! ### Claim C9 -/

/-- Relation between the file before and after one operation: either the file
was not touched, or what was persisted is the serialization of a document that
passed schema validation against the operation's credential store. -/
def persistedOk (store : List (String × String)) (f f' : Option FileVal) : Prop :=
  f' = f ∨ ∃ c : Config, f' = some (.parsed (toRVal c)) ∧ c.version = 1 ∧
    teamValidated store c

theorem persistedOk_refl (store : List (String × String)) (f : Option FileVal) :
    persistedOk store f f := Or.inl rfl

theorem persistedOk_trans {store : List (String × String)} {f f' f'' : Option FileVal}
    (h1 : persistedOk store f f') (h2 : persistedOk store f' f'') :
    persistedOk store f f'' := by
  rcases h2 with h2 | h2
  · rw [h2]; exact h1
  · exact Or.inr h2

theorem write_persistedOk (doc : RVal) (s : St) :
    persistedOk s.creds s.file (config.write doc s).2.file := by
  match hp : schemaParse s.creds doc with
  | .ok c =>
    rw [write_ok hp]
    obtain ⟨h1, h2⟩ := schemaParse_ok hp
    exact Or.inr ⟨c, rfl, h1, h2⟩
  | .error e =>
    rw [write_err hp]
    exact Or.inl rfl

theorem read_persistedOk (s : St) :
    persistedOk s.creds s.file (config.read s).2.file := by
  match hf : s.file with
  | none => rw [read_none hf]; exact Or.inl hf
  | some .corrupt =>
    rw [read_corrupt hf]
    exact Or.inr ⟨defaultConfig, rfl, rfl, Or.inl rfl⟩
  | some (.parsed v) =>
    match hp : schemaParse s.creds v with
    | .ok c => rw [read_parsed_ok hf hp]; exact Or.inl hf
    | .error e =>
      rw [read_parsed_err hf hp]
      exact Or.inr ⟨defaultConfig, rfl, rfl, Or.inl rfl⟩

/-- C9: (1) every document `read` returns has version 1 and a team that is
null or had a credential entry at validation time; (2)–(7) no operation —
`read`, `write`, `get`, `set`, `remove`, `clear` — ever persists a file
other than the serialization of a document that passed schema validation
(version 1 and validated team) against the store current at that moment. -/
theorem c9_document_invariant :
    (∀ (s : St) (c : Config) (s' : St), config.read s = (.ok c, s') →
      c.version = 1 ∧
        (c.team = none ∨ ∃ t sec, c.team = some t ∧ credentials.get s.creds t = some sec)) ∧
    (∀ s : St, persistedOk s.creds s.file (config.read s).2.file) ∧
    (∀ (doc : RVal) (s : St), persistedOk s.creds s.file (config.write doc s).2.file) ∧
    (∀ (p : String) (s : St), persistedOk s.creds s.file (config.get p s).2.file) ∧
    (∀ (p : String) (v : RVal) (s : St),
      persistedOk s.creds s.file (config.set p v s).2.file) ∧
    (∀ (p : String) (s : St), persistedOk s.creds s.file (config.remove p s).2.file) ∧
    (∀ s : St, persistedOk s.creds s.file (config.clear s).2.file) := by
  have hacc : ∀ (s : St) (c : Config) (s' : St), config.read s = (.ok c, s') →
      c.version = 1 ∧
        (c.team = none ∨ ∃ t sec, c.team = some t ∧ credentials.get s.creds t = some sec) := by
    intro s c s' h
    obtain ⟨c0, s0, heq, h1, h2, _, _⟩ := read_total s
    rw [heq] at h
    have hfst : (Except.ok c0 : Except SchemaErr Config) = .ok c :=
      congrArg Prod.fst h
    injection hfst with hc
    subst hc
    refine ⟨h1, ?_⟩
    rcases h2 with h2 | ⟨t, ht, htr⟩
    · exact Or.inl h2
    · obtain ⟨sec, hsec⟩ := truthyOptStr_some htr
      exact Or.inr ⟨t, sec, ht, hsec⟩
  have hget : ∀ (p : String) (s : St), (config.get p s).2 = (config.read s).2 := by
    intro p s
    rcases h : config.read s with ⟨r, s'⟩
    cases r <;> simp [config.get, h]
  have hset : ∀ (p : String) (v : RVal) (s : St),
      persistedOk s.creds s.file (config.set p v s).2.file := by
    intro p v s
    obtain ⟨c, s', hread, _, _, hcreds, _⟩ := read_total s
    have hrp : persistedOk s.creds s.file s'.file := by
      have := read_persistedOk s
      rwa [hread] at this
    have hwp := write_persistedOk (objSet (splitPath p) (toRVal c) v) s'
    rw [hcreds] at hwp
    simp only [config.set, hread]
    exact persistedOk_trans hrp hwp
  have hrem : ∀ (p : String) (s : St),
      persistedOk s.creds s.file (config.remove p s).2.file := by
    intro p s
    obtain ⟨c, s', hread, _, _, hcreds, _⟩ := read_total s
    have hrp : persistedOk s.creds s.file s'.file := by
      have := read_persistedOk s
      rwa [hread] at this
    have hwp := write_persistedOk (objDel (splitPath p) (toRVal c)) s'
    rw [hcreds] at hwp
    simp only [config.remove, hread]
    exact persistedOk_trans hrp hwp
  have hclear : ∀ s : St, persistedOk s.creds s.file (config.clear s).2.file := by
    intro s
    have : config.clear s = config.write (toRVal defaultConfig) s := by
      simp [config.clear, parseDefaults]
    rw [this]
    exact write_persistedOk (toRVal defaultConfig) s
  refine ⟨hacc, read_persistedOk, write_persistedOk, ?_, hset, hrem, hclear⟩
  intro p s
  rw [hget p s]
  exact read_persistedOk s

/-- C9, witness: the returned-document half applied to a concrete read of a
valid file with a non-null team. -/
theorem c9_document_invariant_witness :
    (⟨1, some "t1"⟩ : Config).version = 1 ∧
      ((⟨1, some "t1"⟩ : Config).team = none ∨
        ∃ t sec, (⟨1, some "t1"⟩ : Config).team = some t ∧
          credentials.get [("t1", "K3")] t = some sec) :=
  c9_document_invariant.1
    ⟨true, some (.parsed (.robj [("version", .rint 1), ("team", .rstr "t1")])),
      [("t1", "K3")], []⟩
    ⟨1, some "t1"⟩
    ⟨true, some (.parsed (.robj [("version", .rint 1), ("team", .rstr "t1")])),
      [("t1", "K3")], []⟩
    rfl

/-! ### Shared lemmas for `set`/`get` on the `team` path -/

/-- Setting `team` on a serialized document replaces exactly that field. -/
theorem objSet_team (c : Config) (v : RVal) :
    objSet (splitPath "team") (toRVal c) v =
      .robj [("version", .rint c.version), ("team", v)] := by
  rcases c with ⟨ver, tm⟩
  cases tm <;> rfl

/-- Reading `team` from a serialized document yields its team field. -/
theorem objGet_team (c : Config) :
    objGet (splitPath "team") (toRVal c) =
      some (match c.team with | none => .rnull | some t => .rstr t) := by
  rcases c with ⟨ver, tm⟩
  cases tm <;> rfl

/-- Parsing a document whose `team` is the string `t` validates `t` against
the credential store: a truthy stored secret accepts, anything else raises
the `ConfigError` with the "team not found" message. -/
theorem schemaParse_teamStr (store : List (String × String)) (t : String) :
    schemaParse store (.robj [("version", .rint 1), ("team", .rstr t)]) =
      if truthyOptStr (credentials.get store t) then .ok ⟨1, some t⟩
      else .error (.configErr (teamNotFoundMsg store t)) := by
  by_cases h : truthyOptStr (credentials.get store t) = true
  · simp [schemaParse, lookupAssoc, parseVersion, parseTeam, h]
  · simp only [Bool.not_eq_true] at h
    simp [schemaParse, lookupAssoc, parseVersion, parseTeam, h]

/-- A successful `set("team", ·)`: the validated value is persisted in the
canonical document, with the credential store untouched. -/
theorem set_team_ok {s : St} {v : RVal} {tm : Option String}
    (hv : v = (match tm with | none => .rnull | some t => .rstr t))
    (htm : tm = none ∨ ∃ t, tm = some t ∧ truthyOptStr (credentials.get s.creds t) = true) :
    ∃ s2, config.set "team" v s = (.ok (), s2) ∧
      s2.file = some (.parsed (toRVal ⟨1, tm⟩)) ∧ s2.creds = s.creds := by
  obtain ⟨c, s', hread, h1, _, hcreds, _⟩ := read_total s
  have hdoc : objSet (splitPath "team") (toRVal c) v =
      toRVal ⟨1, tm⟩ := by
    rw [objSet_team, h1, hv]
    cases tm <;> rfl
  have hparse : schemaParse s'.creds (objSet (splitPath "team") (toRVal c) v) =
      .ok ⟨1, tm⟩ := by
    rw [hdoc, hcreds]
    exact schemaParse_toRVal rfl (by
      rcases htm with h | ⟨t, ht, htr⟩
      · exact Or.inl h
      · exact Or.inr ⟨t, ht, htr⟩)
  have hw : config.set "team" v s =
      (.ok (), { s' with dirExists := true, file := some (.parsed (toRVal ⟨1, tm⟩)) }) := by
    simp only [config.set, hread]
    exact write_ok hparse
  exact ⟨_, hw, rfl, hcreds⟩

/-- `get("team")` on a state holding a canonically persisted validated
document returns its team field. -/
theorem get_team_of_file {s2 : St} {tm : Option String}
    (hf : s2.file = some (.parsed (toRVal ⟨1, tm⟩)))
    (htm : tm = none ∨ ∃ t, tm = some t ∧ truthyOptStr (credentials.get s2.creds t) = true) :
    (config.get "team" s2).1 =
      .ok (some (match tm with | none => .rnull | some t => .rstr t)) := by
  have hparse : schemaParse s2.creds (toRVal ⟨1, tm⟩) = .ok ⟨1, tm⟩ :=
    schemaParse_toRVal rfl htm
  have hread := read_parsed_ok hf hparse
  simp only [config.get, hread]
  rw [objGet_team]
  cases tm <;> rfl

/-! ### Claim C4 -/

/-- C4, counterexample: (i) with a store holding the entry `("t", "")`,
`set("team", "t")` fails validation even though the store has an entry for
"t" — the transform tests the secret's truthiness, and an empty secret is
falsy; (ii) with a store holding the single team `""`, at least one team
exists, yet the error message for `set("team", "x")` carries no
"did you mean" hint, because the closest team is the falsy empty string. -/
theorem c4_set_team_claim_false :
    credentials.get [("t", "")] "t" = some "" ∧
    (config.set "team" (.rstr "t")
        ⟨true, some (.parsed defaultRVal), [("t", "")], []⟩).1 =
      .error (.configErr (teamNotFoundMsg [("t", "")] "t")) ∧
    credentials.list [("", "s")] = [""] ∧
    teamNotFoundMsg [("", "s")] "x" =
      "A team named \"x\" was not found in your credentials file. \nAre you logged in? Try running \"\x1b[1mpspace login\x1b[22m\" first." :=
  ⟨rfl, rfl, rfl, rfl⟩

/-- C4, amended: `set("team", t)` fails with the `ConfigError` carrying the
"team not found" message whenever the stored secret for `t` is not truthy
(no entry, or an empty secret); the message names `t`, instructs the user to
run `pspace login`, and carries a "did you mean" hint naming
`closest(CredentialStore.list(), t)` whenever that closest team is a
non-empty string; when the store has an entry for `t` with a non-empty
secret, `set("team", t)` succeeds and a subsequent `get("team")` returns
`t`. -/
theorem c4_set_team_validation :
    (∀ (s : St) (t : String),
      truthyOptStr (credentials.get s.creds t) = false →
      ∃ s2, config.set "team" (.rstr t) s =
        (.error (.configErr (teamNotFoundMsg s.creds t)), s2)) ∧
    (∀ (store : List (String × String)) (t : String),
      ∃ post, teamNotFoundMsg store t = "A team named \"" ++ (t ++ post)) ∧
    (∀ (store : List (String × String)) (t : String),
      ∃ pre, teamNotFoundMsg store t =
        pre ++ ("\nAre you logged in? Try running \"" ++
          (bold "pspace login" ++ "\" first."))) ∧
    (∀ (store : List (String × String)) (t hint : String),
      closest (credentials.list store) t = some hint → hint ≠ "" →
      ∃ pre post, teamNotFoundMsg store t =
        pre ++ ("\n\nDid you mean " ++ (bold hint ++ post))) ∧
    (∀ (s : St) (t sec : String),
      credentials.get s.creds t = some sec → sec ≠ "" →
      ∃ s2, config.set "team" (.rstr t) s = (.ok (), s2) ∧
        (config.get "team" s2).1 = .ok (some (.rstr t))) := by
  refine ⟨?_, ?_, ?_, ?_, ?_⟩
  · intro s t htr
    obtain ⟨c, s', hread, h1, _, hcreds, _⟩ := read_total s
    have hparse : schemaParse s'.creds (objSet (splitPath "team") (toRVal c) (.rstr t)) =
        .error (.configErr (teamNotFoundMsg s.creds t)) := by
      rw [objSet_team, h1, hcreds, schemaParse_teamStr, htr]
      simp
    refine ⟨{ s' with dirExists := true }, ?_⟩
    simp only [config.set, hread]
    exact write_err hparse
  · intro store t
    refine ⟨"\" was not found in your credentials file. " ++
      (if truthyOptStr (closest (credentials.list store) t) = true then
          "\n\nDid you mean " ++ bold ((closest (credentials.list store) t).getD "") ++ "?"
        else "") ++
      "\nAre you logged in? Try running \"" ++ bold "pspace login" ++ "\" first.", ?_⟩
    simp [teamNotFoundMsg, String.append_assoc]
  · intro store t
    refine ⟨"A team named \"" ++ t ++ "\" was not found in your credentials file. " ++
      (if truthyOptStr (closest (credentials.list store) t) = true then
          "\n\nDid you mean " ++ bold ((closest (credentials.list store) t).getD "") ++ "?"
        else ""), ?_⟩
    simp [teamNotFoundMsg, String.append_assoc]
  · intro store t hint hc hne
    have htr : truthyOptStr (closest (credentials.list store) t) = true := by
      rw [hc]
      simp [truthyOptStr, truthyStr, hne]
    refine ⟨"A team named \"" ++ t ++ "\" was not found in your credentials file. ",
      "?\nAre you logged in? Try running \"" ++ bold "pspace login" ++ "\" first.", ?_⟩
    simp only [teamNotFoundMsg, hc, Option.getD_some]
    simp [truthyOptStr, truthyStr, hne, String.append_assoc]
  · intro s t sec hsec hne
    have htr : truthyOptStr (credentials.get s.creds t) = true := by
      rw [hsec]
      simp [truthyOptStr, truthyStr, hne]
    obtain ⟨s2, hset, hfile, hcreds⟩ :=
      @set_team_ok s (.rstr t) (some t) rfl (Or.inr ⟨t, rfl, htr⟩)
    refine ⟨s2, hset, ?_⟩
    have := @get_team_of_file s2 (some t) hfile
      (Or.inr ⟨t, rfl, by rwa [hcreds]⟩)
    simpa using this

/-- C4, witness: the amended theorem's branches applied to a concrete store
`[("alpha", "K")]`: failure (with hint "alpha") for the unknown team
"alphb", success and round-trip for "alpha". -/
theorem c4_set_team_validation_witness :
    (∃ s2, config.set "team" (.rstr "alphb")
        ⟨true, some (.parsed defaultRVal), [("alpha", "K")], []⟩ =
      (.error (.configErr (teamNotFoundMsg [("alpha", "K")] "alphb")), s2)) ∧
    (∃ pre post, teamNotFoundMsg [("alpha", "K")] "alphb" =
      pre ++ ("\n\nDid you mean " ++ (bold "alpha" ++ post))) ∧
    (∃ s2, config.set "team" (.rstr "alpha")
        ⟨true, some (.parsed defaultRVal), [("alpha", "K")], []⟩ = (.ok (), s2) ∧
      (config.get "team" s2).1 = .ok (some (.rstr "alpha"))) :=
  ⟨c4_set_team_validation.1 _ "alphb" rfl,
   c4_set_team_validation.2.2.2.1 _ "alphb" "alpha" rfl (by decide),
   c4_set_team_validation.2.2.2.2 _ "alpha" "K" rfl (by decide)⟩

/-! ### Claim C5 -/

/-- C5, counterexample: with the store `[("t", "")]`, the value "t" is a
string with a CredentialStore entry, so the claim requires the
`set`-then-`get` round-trip to return it; instead `set("team", "t")` throws
(the empty secret is falsy) and `get("team")` still returns `null`. -/
theorem c5_roundtrip_claim_false :
    credentials.get [("t", "")] "t" = some "" ∧
    (config.set "team" (.rstr "t")
        ⟨true, some (.parsed defaultRVal), [("t", "")], []⟩).1 =
      .error (.configErr (teamNotFoundMsg [("t", "")] "t")) ∧
    (config.get "team"
        (config.set "team" (.rstr "t")
          ⟨true, some (.parsed defaultRVal), [("t", "")], []⟩).2).1 =
      .ok (some .rnull) ∧
    some RVal.rnull ≠ some (RVal.rstr "t") :=
  ⟨rfl, rfl, rfl, by simp⟩

/-- C5, amended: for every enumerated path (here only `team`) and every value
satisfying the path's leaf constraint as the code checks it — `null`, or a
string whose stored secret exists and is non-empty — `set(path, v)` succeeds
and a subsequent `get(path)` returns `v`. -/
theorem c5_set_get_roundtrip {p : String} (hp : p ∈ paths) (s : St) (v : RVal)
    (hv : v = .rnull ∨
      ∃ t sec, v = .rstr t ∧ credentials.get s.creds t = some sec ∧ sec ≠ "") :
    ∃ s2, config.set p v s = (.ok (), s2) ∧
      (config.get p s2).1 = .ok (some v) := by
  rw [paths_eq] at hp
  have hpe : p = "team" := List.mem_singleton.mp hp
  subst hpe
  rcases hv with hv | ⟨t, sec, hv, hsec, hne⟩
  · obtain ⟨s2, hset, hfile, hcreds⟩ :=
      @set_team_ok s v none hv (Or.inl rfl)
    refine ⟨s2, hset, ?_⟩
    have := @get_team_of_file s2 none hfile (Or.inl rfl)
    rw [hv]
    simpa using this
  · have htr : truthyOptStr (credentials.get s.creds t) = true := by
      rw [hsec]
      simp [truthyOptStr, truthyStr, hne]
    obtain ⟨s2, hset, hfile, hcreds⟩ :=
      @set_team_ok s v (some t) hv (Or.inr ⟨t, rfl, htr⟩)
    refine ⟨s2, hset, ?_⟩
    have := @get_team_of_file s2 (some t) hfile
      (Or.inr ⟨t, rfl, by rwa [hcreds]⟩)
    rw [hv]
    simpa using this

/-- C5, witness: the round-trip evaluated for both valid leaf values, `null`
and a known team, on a concrete state. -/
theorem c5_set_get_roundtrip_witness :
    (∃ s2, config.set "team" .rnull
        ⟨true, some (.parsed defaultRVal), [("t1", "K")], []⟩ = (.ok (), s2) ∧
      (config.get "team" s2).1 = .ok (some .rnull)) ∧
    (∃ s2, config.set "team" (.rstr "t1")
        ⟨true, some (.parsed defaultRVal), [("t1", "K")], []⟩ = (.ok (), s2) ∧
      (config.get "team" s2).1 = .ok (some (.rstr "t1"))) :=
  ⟨c5_set_get_roundtrip (by decide) _ _ (Or.inl rfl),
   c5_set_get_roundtrip (by decide) _ _
    (Or.inr ⟨"t1", "K", rfl, rfl, by decide⟩)⟩

/-! ### Lemmas about the environment and the resolver -/

theorem lookup_upsert_self {α : Type} (e : List (String × α)) (k : String) (v : α) :
    lookupAssoc (upsertAssoc e k v) k = some v := by
  induction e with
  | nil => simp [lookupAssoc, upsertAssoc]
  | cons hd tl ih =>
    rcases hd with ⟨k1, v1⟩
    by_cases h : k1 == k <;> simp_all [lookupAssoc, upsertAssoc]

theorem lookup_upsert_ne {α : Type} (e : List (String × α)) {k' k : String}
    (h : k' ≠ k) (v : α) :
    lookupAssoc (upsertAssoc e k' v) k = lookupAssoc e k := by
  induction e with
  | nil => simp [lookupAssoc, upsertAssoc, h]
  | cons hd tl ih =>
    rcases hd with ⟨k1, v1⟩
    by_cases h1 : k1 == k'
    · have hk1 : k1 = k' := by simpa using h1
      subst hk1
      simp [lookupAssoc, upsertAssoc, h, h1]
    · simp only [upsertAssoc, h1, Bool.false_eq_true, if_false, lookupAssoc]
      by_cases h2 : k1 == k
      · simp [h2]
      · simp [h2, ih]

theorem applyOverrides_file (opt : Opt) (s : St) :
    (applyOverrides opt s).file = s.file := by
  unfold applyOverrides
  cases opt.debug <;>
    cases truthyOptStr opt.apiKey <;>
    cases truthyOptStr opt.apiUrl <;> rfl

theorem applyOverrides_creds (opt : Opt) (s : St) :
    (applyOverrides opt s).creds = s.creds := by
  unfold applyOverrides
  cases opt.debug <;>
    cases truthyOptStr opt.apiKey <;>
    cases truthyOptStr opt.apiUrl <;> rfl

theorem applyOverrides_dir (opt : Opt) (s : St) :
    (applyOverrides opt s).dirExists = s.dirExists := by
  unfold applyOverrides
  cases opt.debug <;>
    cases truthyOptStr opt.apiKey <;>
    cases truthyOptStr opt.apiUrl <;> rfl

/-- With no (truthy) `--api-key` override, the flag phase leaves
`PAPERSPACE_API_KEY` alone: `DEBUG` and `PAPERSPACE_API_URL` are different
variables. -/
theorem applyOverrides_key_of_none {opt : Opt} (h : opt.apiKey = none) (s : St) :
    env.get (applyOverrides opt s).env "PAPERSPACE_API_KEY" =
      env.get s.env "PAPERSPACE_API_KEY" := by
  unfold applyOverrides
  rw [h]
  have hdbg : ∀ el b, env.get (env.set el "DEBUG" b) "PAPERSPACE_API_KEY" =
      env.get el "PAPERSPACE_API_KEY" :=
    fun el b => lookup_upsert_ne el (by decide) b
  have hurl : ∀ el u, env.get (env.set el "PAPERSPACE_API_URL" u) "PAPERSPACE_API_KEY" =
      env.get el "PAPERSPACE_API_KEY" :=
    fun el u => lookup_upsert_ne el (by decide) u
  cases opt.debug <;> cases htu : truthyOptStr opt.apiUrl <;>
    simp [truthyOptStr, htu, hdbg, hurl]

/-- A truthy `--api-key` override ends the flag phase with
`PAPERSPACE_API_KEY` equal to the override. -/
theorem applyOverrides_key_of_some {opt : Opt} {k1 : String}
    (h : opt.apiKey = some k1) (hne : k1 ≠ "") (s : St) :
    env.get (applyOverrides opt s).env "PAPERSPACE_API_KEY" = some k1 := by
  unfold applyOverrides
  rw [h]
  have htr : truthyOptStr (some k1) = true := by simp [truthyOptStr, truthyStr, hne]
  have hurl : ∀ el u, env.get (env.set el "PAPERSPACE_API_URL" u) "PAPERSPACE_API_KEY" =
      env.get el "PAPERSPACE_API_KEY" :=
    fun el u => lookup_upsert_ne el (by decide) u
  cases opt.debug <;> cases htu : truthyOptStr opt.apiUrl <;>
    simp only [htr, if_true, htu, Bool.false_eq_true, if_false] <;>
    first
      | exact lookup_upsert_self _ _ _
      | (rw [hurl]; exact lookup_upsert_self _ _ _)

/-- When the override or the environment already carries a truthy key, `act`
stops after the flag phase: the config file is never consulted. -/
theorem act_stops_when_env_truthy {opt : Opt} {s : St}
    (h : truthyOptStr (env.get (applyOverrides opt s).env "PAPERSPACE_API_KEY") = true) :
    act opt s = (.ok (), applyOverrides opt s) := by
  unfold act
  simp only [h, if_true]

/-- The team source: with no override and a falsy environment key, a valid
config whose non-empty team has a stored credential makes `act` write that
credential into the environment; the credential is non-empty because the team
passed validation. -/
theorem act_team_source {opt : Opt} {s : St} {v : RVal} {c : Config} {t k3 : String}
    (hak : opt.apiKey = none)
    (henv : truthyOptStr (env.get s.env "PAPERSPACE_API_KEY") = false)
    (hf : s.file = some (.parsed v)) (hp : schemaParse s.creds v = .ok c)
    (ht : c.team = some t) (htne : t ≠ "")
    (hcred : credentials.get s.creds t = some k3) :
    act opt s = (.ok (),
      { applyOverrides opt s with
        env := env.set (applyOverrides opt s).env "PAPERSPACE_API_KEY" k3 }) ∧
    k3 ≠ "" := by
  have hkey : env.get (applyOverrides opt s).env "PAPERSPACE_API_KEY" =
      env.get s.env "PAPERSPACE_API_KEY" := applyOverrides_key_of_none hak s
  have hf3 : (applyOverrides opt s).file = some (.parsed v) := by
    rw [applyOverrides_file, hf]
  have hp3 : schemaParse (applyOverrides opt s).creds v = .ok c := by
    rw [applyOverrides_creds]
    exact hp
  have hread : config.read (applyOverrides opt s) = (.ok c, applyOverrides opt s) :=
    read_parsed_ok hf3 hp3
  have hget : config.get "team" (applyOverrides opt s) =
      (.ok (some (.rstr t)), applyOverrides opt s) := by
    simp only [config.get, hread, objGet_team, ht]
  have hk3 : k3 ≠ "" := by
    obtain ⟨_, h2⟩ := schemaParse_ok hp
    rcases h2 with h2 | ⟨t', ht', htr⟩
    · rw [ht] at h2; cases h2
    · rw [ht] at ht'
      injection ht' with ht''
      subst ht''
      rw [hcred] at htr
      simpa [truthyOptStr, truthyStr] using htr
  refine ⟨?_, hk3⟩
  have htr : rvalTruthy (some (.rstr t)) = true := by
    simp [rvalTruthy, htne]
  unfold act
  simp only [hkey, henv, Bool.false_eq_true, if_false, hget, htr, if_true,
    rvalAsString, applyOverrides_creds, hcred, Option.getD_some]

/-- With no override and a falsy environment key, a valid config whose team
is null leaves the resolver with nothing: `act` returns with the state of the
flag phase. -/
theorem act_team_null {opt : Opt} {s : St} {v : RVal} {c : Config}
    (hak : opt.apiKey = none)
    (henv : truthyOptStr (env.get s.env "PAPERSPACE_API_KEY") = false)
    (hf : s.file = some (.parsed v)) (hp : schemaParse s.creds v = .ok c)
    (ht : c.team = none) :
    act opt s = (.ok (), applyOverrides opt s) := by
  have hkey : env.get (applyOverrides opt s).env "PAPERSPACE_API_KEY" =
      env.get s.env "PAPERSPACE_API_KEY" := applyOverrides_key_of_none hak s
  have hf3 : (applyOverrides opt s).file = some (.parsed v) := by
    rw [applyOverrides_file, hf]
  have hp3 : schemaParse (applyOverrides opt s).creds v = .ok c := by
    rw [applyOverrides_creds]
    exact hp
  have hread : config.read (applyOverrides opt s) = (.ok c, applyOverrides opt s) :=
    read_parsed_ok hf3 hp3
  have hget : config.get "team" (applyOverrides opt s) =
      (.ok (some .rnull), applyOverrides opt s) := by
    simp only [config.get, hread, objGet_team, ht]
  unfold act
  simp only [hkey, henv, Bool.false_eq_true, if_false, hget, rvalTruthy]

/-- Given a clean `read` on the post-flag state, `act` leaves the config file
as it was. -/
theorem act_file_frame_of_read {opt : Opt} {s : St} {c : Config}
    (hread : config.read (applyOverrides opt s) = (.ok c, applyOverrides opt s)) :
    (act opt s).2.file = s.file := by
  by_cases htr : truthyOptStr (env.get (applyOverrides opt s).env "PAPERSPACE_API_KEY") = true
  · rw [act_stops_when_env_truthy htr]
    exact applyOverrides_file opt s
  · have hget : config.get "team" (applyOverrides opt s) =
        (.ok (objGet (splitPath "team") (toRVal c)), applyOverrides opt s) := by
      simp only [config.get, hread]
    simp only [Bool.not_eq_true] at htr
    unfold act
    simp only [htr, Bool.false_eq_true, if_false, hget]
    cases hrt : rvalTruthy (objGet (splitPath "team") (toRVal c)) <;>
      simp [applyOverrides_file]

/-- `act` never touches the credential store. -/
theorem act_creds (opt : Opt) (s : St) : (act opt s).2.creds = s.creds := by
  by_cases htr : truthyOptStr (env.get (applyOverrides opt s).env "PAPERSPACE_API_KEY") = true
  · rw [act_stops_when_env_truthy htr]
    exact applyOverrides_creds opt s
  · obtain ⟨c, s', hread, _, _, hcreds, _⟩ := read_total (applyOverrides opt s)
    have hget : config.get "team" (applyOverrides opt s) =
        (.ok (objGet (splitPath "team") (toRVal c)), s') := by
      simp only [config.get, hread]
    simp only [Bool.not_eq_true] at htr
    unfold act
    simp only [htr, Bool.false_eq_true, if_false, hget]
    have : s'.creds = s.creds := by rw [hcreds, applyOverrides_creds]
    cases hrt : rvalTruthy (objGet (splitPath "team") (toRVal c)) <;> simp [this]

/-! ### Claim C3 -/

/-- C3, counterexample: the claim is false for a config whose team is the
empty string. The state below has a valid config with `team: ""` and a
stored, non-empty credential "K3" for that team; with no override and an
empty environment the claim requires the resolver to yield "K3", but `act`
never consults the store (`if (team)` is falsy for `""`) and resolves no
credential. -/
theorem c3_precedence_claim_false :
    (config.get "team"
        ⟨true, some (.parsed (.robj [("version", .rint 1), ("team", .rstr "")])),
          [("", "K3")], []⟩).1 = .ok (some (.rstr "")) ∧
    credentials.get [("", "K3")] "" = some "K3" ∧
    (act ⟨none, none, none⟩
        ⟨true, some (.parsed (.robj [("version", .rint 1), ("team", .rstr "")])),
          [("", "K3")], []⟩).1 = .ok () ∧
    env.get (act ⟨none, none, none⟩
        ⟨true, some (.parsed (.robj [("version", .rint 1), ("team", .rstr "")])),
          [("", "K3")], []⟩).2.env "PAPERSPACE_API_KEY" = none :=
  ⟨rfl, rfl, rfl, rfl⟩

/-- C3, amended: the resolver evaluates override, then environment, then the
stored credential of the config's team, the first truthy value winning:
(1) a non-empty override determines the credential and the config is not even
consulted; (2) with no override, a non-empty environment value wins, again
without consulting the config; (3) with both falsy, the stored credential of
a validated, NON-EMPTY team is written to the environment (an empty-string
team is skipped, see the counterexample); (4) with all three absent the
resolver yields no credential and no error. -/
theorem c3_resolver_precedence :
    (∀ (opt : Opt) (s : St) (k1 : String), opt.apiKey = some k1 → k1 ≠ "" →
      act opt s = (.ok (), applyOverrides opt s) ∧
      env.get (act opt s).2.env "PAPERSPACE_API_KEY" = some k1 ∧
      (act opt s).2.file = s.file) ∧
    (∀ (opt : Opt) (s : St) (k2 : String), opt.apiKey = none →
      env.get s.env "PAPERSPACE_API_KEY" = some k2 → k2 ≠ "" →
      act opt s = (.ok (), applyOverrides opt s) ∧
      env.get (act opt s).2.env "PAPERSPACE_API_KEY" = some k2 ∧
      (act opt s).2.file = s.file) ∧
    (∀ (opt : Opt) (s : St) (v : RVal) (c : Config) (t k3 : String),
      opt.apiKey = none →
      truthyOptStr (env.get s.env "PAPERSPACE_API_KEY") = false →
      s.file = some (.parsed v) → schemaParse s.creds v = .ok c →
      c.team = some t → t ≠ "" → credentials.get s.creds t = some k3 →
      env.get (act opt s).2.env "PAPERSPACE_API_KEY" = some k3 ∧ k3 ≠ "" ∧
      (act opt s).1 = .ok () ∧ (act opt s).2.file = s.file) ∧
    (∀ (opt : Opt) (s : St) (v : RVal) (c : Config),
      opt.apiKey = none →
      truthyOptStr (env.get s.env "PAPERSPACE_API_KEY") = false →
      s.file = some (.parsed v) → schemaParse s.creds v = .ok c →
      c.team = none →
      (act opt s).1 = .ok () ∧
      truthyOptStr (env.get (act opt s).2.env "PAPERSPACE_API_KEY") = false) := by
  refine ⟨?_, ?_, ?_, ?_⟩
  · intro opt s k1 hk hne
    have hkey := applyOverrides_key_of_some hk hne s
    have htr : truthyOptStr (env.get (applyOverrides opt s).env "PAPERSPACE_API_KEY") = true := by
      rw [hkey]
      simp [truthyOptStr, truthyStr, hne]
    have hact := act_stops_when_env_truthy htr
    rw [hact]
    exact ⟨rfl, hkey, applyOverrides_file opt s⟩
  · intro opt s k2 hk henv hne
    have hkey : env.get (applyOverrides opt s).env "PAPERSPACE_API_KEY" = some k2 := by
      rw [applyOverrides_key_of_none hk s, henv]
    have htr : truthyOptStr (env.get (applyOverrides opt s).env "PAPERSPACE_API_KEY") = true := by
      rw [hkey]
      simp [truthyOptStr, truthyStr, hne]
    have hact := act_stops_when_env_truthy htr
    rw [hact]
    exact ⟨rfl, hkey, applyOverrides_file opt s⟩
  · intro opt s v c t k3 hak henv hf hp ht htne hcred
    obtain ⟨hact, hk3⟩ := act_team_source hak henv hf hp ht htne hcred
    rw [hact]
    exact ⟨lookup_upsert_self _ _ _, hk3, rfl, by rw [applyOverrides_file opt s, hf]⟩
  · intro opt s v c hak henv hf hp ht
    have hact := act_team_null hak henv hf hp ht
    rw [hact]
    refine ⟨rfl, ?_⟩
    rw [applyOverrides_key_of_none hak s]
    exact henv

/-- C3, witness: the four precedence scenarios evaluated on concrete states:
override "K1" over environment "K2"; environment "K2" alone; stored
credential "K3" of team "t1" alone; and all sources absent. -/
theorem c3_resolver_precedence_witness :
    env.get (act ⟨none, some "K1", none⟩
      ⟨true, some (.parsed defaultRVal), [], [("PAPERSPACE_API_KEY", "K2")]⟩).2.env
      "PAPERSPACE_API_KEY" = some "K1" ∧
    env.get (act ⟨none, none, none⟩
      ⟨true, some (.parsed defaultRVal), [], [("PAPERSPACE_API_KEY", "K2")]⟩).2.env
      "PAPERSPACE_API_KEY" = some "K2" ∧
    env.get (act ⟨none, none, none⟩
      ⟨true, some (.parsed (.robj [("version", .rint 1), ("team", .rstr "t1")])),
        [("t1", "K3")], []⟩).2.env "PAPERSPACE_API_KEY" = some "K3" ∧
    ((act ⟨none, none, none⟩ ⟨true, some (.parsed defaultRVal), [], []⟩).1 = .ok () ∧
      truthyOptStr (env.get (act ⟨none, none, none⟩
        ⟨true, some (.parsed defaultRVal), [], []⟩).2.env "PAPERSPACE_API_KEY") = false) :=
  ⟨(c3_resolver_precedence.1 ⟨none, some "K1", none⟩
      ⟨true, some (.parsed defaultRVal), [], [("PAPERSPACE_API_KEY", "K2")]⟩
      "K1" rfl (by decide)).2.1,
   (c3_resolver_precedence.2.1 ⟨none, none, none⟩
      ⟨true, some (.parsed defaultRVal), [], [("PAPERSPACE_API_KEY", "K2")]⟩
      "K2" rfl rfl (by decide)).2.1,
   (c3_resolver_precedence.2.2.1 ⟨none, none, none⟩
      ⟨true, some (.parsed (.robj [("version", .rint 1), ("team", .rstr "t1")])),
        [("t1", "K3")], []⟩
      (.robj [("version", .rint 1), ("team", .rstr "t1")]) ⟨1, some "t1"⟩ "t1" "K3"
      rfl rfl rfl rfl rfl (by decide) rfl).1,
   c3_resolver_precedence.2.2.2 ⟨none, none, none⟩
      ⟨true, some (.parsed defaultRVal), [], []⟩
      defaultRVal defaultConfig rfl rfl rfl rfl rfl⟩

/-! ### Claim C10 -/

/-- C10, counterexample: resolution can modify the persisted config. The
state below has a config file whose team "ghost" has no credential entry;
with no override and an empty environment, `act`'s call to
`config.get("team")` triggers `read`'s recovery, which rewrites the file to
defaults — the persisted team field changes from "ghost" to null during
resolution. -/
theorem c10_resolution_modifies_invalid_config :
    objGet (splitPath "team")
        (.robj [("version", .rint 1), ("team", .rstr "ghost")]) =
      some (.rstr "ghost") ∧
    (act ⟨none, none, none⟩
        ⟨true, some (.parsed (.robj [("version", .rint 1), ("team", .rstr "ghost")])),
          [("other", "K")], []⟩).1 = .ok () ∧
    (act ⟨none, none, none⟩
        ⟨true, some (.parsed (.robj [("version", .rint 1), ("team", .rstr "ghost")])),
          [("other", "K")], []⟩).2.file = some (.parsed defaultRVal) ∧
    objGet (splitPath "team") defaultRVal = some .rnull ∧
    some (RVal.rstr "ghost") ≠ some RVal.rnull :=
  ⟨rfl, rfl, rfl, rfl, by simp⟩

/-- C10, amended: with no override and a falsy `PAPERSPACE_API_KEY`, a valid
config whose NON-EMPTY team has a stored credential makes the resolver write
that stored secret into `PAPERSPACE_API_KEY`, so the environment holds the
effective credential; resolution never touches the credential store, and it
leaves the config file unchanged whenever the file is absent or valid — an
invalid file, however, is rewritten to defaults by the `read` that resolution
triggers (see the counterexample). -/
theorem c10_env_population_and_frame :
    (∀ (opt : Opt) (s : St) (v : RVal) (c : Config) (t k3 : String),
      opt.apiKey = none →
      truthyOptStr (env.get s.env "PAPERSPACE_API_KEY") = false →
      s.file = some (.parsed v) → schemaParse s.creds v = .ok c →
      c.team = some t → t ≠ "" → credentials.get s.creds t = some k3 →
      env.get (act opt s).2.env "PAPERSPACE_API_KEY" = some k3 ∧
      (act opt s).2.file = s.file ∧ (act opt s).2.creds = s.creds) ∧
    (∀ (opt : Opt) (s : St),
      (s.file = none ∨ ∃ v c, s.file = some (.parsed v) ∧ schemaParse s.creds v = .ok c) →
      (act opt s).2.file = s.file) ∧
    (∀ (opt : Opt) (s : St), (act opt s).2.creds = s.creds) := by
  refine ⟨?_, ?_, act_creds⟩
  · intro opt s v c t k3 hak henv hf hp ht htne hcred
    obtain ⟨hact, _⟩ := act_team_source hak henv hf hp ht htne hcred
    rw [hact]
    exact ⟨lookup_upsert_self _ _ _, by rw [applyOverrides_file opt s, hf],
      applyOverrides_creds opt s⟩
  · intro opt s h
    rcases h with h | ⟨v, c, hf, hp⟩
    · have hf3 : (applyOverrides opt s).file = none := by
        rw [applyOverrides_file, h]
      exact act_file_frame_of_read (read_none hf3)
    · have hf3 : (applyOverrides opt s).file = some (.parsed v) := by
        rw [applyOverrides_file, hf]
      have hp3 : schemaParse (applyOverrides opt s).creds v = .ok c := by
        rw [applyOverrides_creds]
        exact hp
      exact act_file_frame_of_read (read_parsed_ok hf3 hp3)

/-- C10, witness: population from the lowest-precedence source on a concrete
state, with the file and store untouched, and the frame parts on the same
state. -/
theorem c10_env_population_and_frame_witness :
    (env.get (act ⟨none, none, none⟩
        ⟨true, some (.parsed (.robj [("version", .rint 1), ("team", .rstr "t1")])),
          [("t1", "K3")], []⟩).2.env "PAPERSPACE_API_KEY" = some "K3" ∧
      (act ⟨none, none, none⟩
        ⟨true, some (.parsed (.robj [("version", .rint 1), ("team", .rstr "t1")])),
          [("t1", "K3")], []⟩).2.file =
        some (.parsed (.robj [("version", .rint 1), ("team", .rstr "t1")])) ∧
      (act ⟨none, none, none⟩
        ⟨true, some (.parsed (.robj [("version", .rint 1), ("team", .rstr "t1")])),
          [("t1", "K3")], []⟩).2.creds = [("t1", "K3")]) ∧
    (act ⟨none, none, none⟩ ⟨true, none, [], []⟩).2.file = none :=
  ⟨(c10_env_population_and_frame.1 ⟨none, none, none⟩
      ⟨true, some (.parsed (.robj [("version", .rint 1), ("team", .rstr "t1")])),
        [("t1", "K3")], []⟩
      (.robj [("version", .rint 1), ("team", .rstr "t1")]) ⟨1, some "t1"⟩ "t1" "K3"
      rfl rfl rfl rfl rfl (by decide) rfl),
   c10_env_population_and_frame.2.1 ⟨none, none, none⟩ ⟨true, none, [], []⟩ (Or.inl rfl)⟩

/-! ### Claim C6 -/

/-- Whether a node is an object (has a zod `shape`). -/
def isObjNode : ZNode → Bool
  | .zobject _ => true
  | _ => false

/-- Stripping every optional-style wrapper (`ZodOptional`, `ZodDefault`,
`ZodNullable`); a `ZodEffects` node is opaque — its content is never
addressable — and objects and leaves are returned as they are. -/
def fullyUnwrap : ZNode → ZNode
  | .zoptional inner => fullyUnwrap inner
  | .zdefault inner => fullyUnwrap inner
  | .znullable inner => fullyUnwrap inner
  | n => n

mutual

/-- The single-wrapper discipline under which `getKeys` sees every nested
object: an object field is bare or under exactly one `ZodOptional`/`ZodDefault`
wrapper (recursively), and every other field does not hide an object beneath
its wrappers. -/
def goodNode : ZNode → Bool
  | .zobject shape => goodShape shape
  | .zoptional (.zobject shape) => goodShape shape
  | .zdefault (.zobject shape) => goodShape shape
  | n => !(isObjNode (fullyUnwrap n))

/-- The discipline, across all fields of a shape. -/
def goodShape : List (String × ZNode) → Bool
  | [] => true
  | (_, node) :: rest => goodNode node && goodShape rest

end

/-- `getKeysEntry` restated in the literal form of the source: unwrap
`_def.innerType` once when `isOptional()` holds, then recurse exactly when
the result is an object. -/
theorem getKeysEntry_eq (key : String) (node : ZNode) :
    getKeysEntry key node =
      match (if isOptionalZ node then innerTypeZ node else node) with
      | .zobject shape2 => (getKeys shape2).map (fun subKey => key ++ "." ++ subKey)
      | _ => [key] := by
  match node with
  | .leaf => rfl
  | .zeffects i => rfl
  | .zobject s => rfl
  | .zoptional i => cases i <;> rfl
  | .zdefault i => cases i <;> rfl
  | .znullable i =>
    match hio : isOptionalZ (ZNode.znullable i) with
    | false => rfl
    | true =>
      have hi : isOptionalZ i = true := hio
      cases i <;> first | rfl | exact Bool.noConfusion hi

/-- A node whose wrappers hide no object contributes exactly its own key to
the leaf paths. -/
theorem leafPathsEntry_of_not_obj (key : String) :
    ∀ (n : ZNode), isObjNode (fullyUnwrap n) = false → leafPathsEntry key n = [key]
  | .leaf, _ => rfl
  | .zeffects _, _ => rfl
  | .zobject _, h => absurd h (by simp [fullyUnwrap, isObjNode])
  | .zoptional i, h => by
    have := leafPathsEntry_of_not_obj key i (by simpa [fullyUnwrap] using h)
    simpa [leafPathsEntry] using this
  | .zdefault i, h => by
    have := leafPathsEntry_of_not_obj key i (by simpa [fullyUnwrap] using h)
    simpa [leafPathsEntry] using this
  | .znullable i, h => by
    have := leafPathsEntry_of_not_obj key i (by simpa [fullyUnwrap] using h)
    simpa [leafPathsEntry] using this

mutual

/-- Under the single-wrapper discipline, one `getKeys` entry coincides with
the leaf paths of the field. -/
theorem getKeysEntry_eq_leafPathsEntry : ∀ (key : String) (node : ZNode),
    goodNode node = true → getKeysEntry key node = leafPathsEntry key node
  | key, .leaf, _ => rfl
  | key, .zeffects _, _ => rfl
  | key, .znullable i, h => by
    rw [leafPathsEntry_of_not_obj key _ (by simpa [goodNode] using h)]
    rfl
  | key, .zobject s, h => by
    have hs : goodShape s = true := by simpa [goodNode] using h
    show (getKeys s).map _ = (leafPathsShape s).map _
    rw [getKeys_eq_leafPathsShape s hs]
  | key, .zoptional i, h => by
    match i with
    | .zobject s =>
      have hs : goodShape s = true := by simpa [goodNode] using h
      show (getKeys s).map _ = (leafPathsShape s).map _
      rw [getKeys_eq_leafPathsShape s hs]
    | .leaf =>
      rw [leafPathsEntry_of_not_obj key _ (by simpa [goodNode] using h)]
      rfl
    | .zeffects j =>
      rw [leafPathsEntry_of_not_obj key _ (by simpa [goodNode] using h)]
      rfl
    | .zoptional j =>
      rw [leafPathsEntry_of_not_obj key _ (by simpa [goodNode] using h)]
      rfl
    | .zdefault j =>
      rw [leafPathsEntry_of_not_obj key _ (by simpa [goodNode] using h)]
      rfl
    | .znullable j =>
      rw [leafPathsEntry_of_not_obj key _ (by simpa [goodNode] using h)]
      rfl
  | key, .zdefault i, h => by
    match i with
    | .zobject s =>
      have hs : goodShape s = true := by simpa [goodNode] using h
      show (getKeys s).map _ = (leafPathsShape s).map _
      rw [getKeys_eq_leafPathsShape s hs]
    | .leaf =>
      rw [leafPathsEntry_of_not_obj key _ (by simpa [goodNode] using h)]
      rfl
    | .zeffects j =>
      rw [leafPathsEntry_of_not_obj key _ (by simpa [goodNode] using h)]
      rfl
    | .zoptional j =>
      rw [leafPathsEntry_of_not_obj key _ (by simpa [goodNode] using h)]
      rfl
    | .zdefault j =>
      rw [leafPathsEntry_of_not_obj key _ (by simpa [goodNode] using h)]
      rfl
    | .znullable j =>
      rw [leafPathsEntry_of_not_obj key _ (by simpa [goodNode] using h)]
      rfl

/-- Under the single-wrapper discipline, `getKeys` produces exactly the leaf
paths, in depth-first declaration order. -/
theorem getKeys_eq_leafPathsShape : ∀ (shape : List (String × ZNode)),
    goodShape shape = true → getKeys shape = leafPathsShape shape
  | [], _ => rfl
  | (key, node) :: rest, h => by
    have h1 : goodNode node = true := by
      have := h
      simp only [goodShape, Bool.and_eq_true] at this
      exact this.1
    have h2 : goodShape rest = true := by
      have := h
      simp only [goodShape, Bool.and_eq_true] at this
      exact this.2
    show getKeysEntry key node ++ getKeys rest =
      leafPathsEntry key node ++ leafPathsShape rest
    rw [getKeysEntry_eq_leafPathsEntry key node h1, getKeys_eq_leafPathsShape rest h2]

end

/-- C6, counterexample: for a schema with a nested object wrapped the way the
repo's own `team` field is wrapped (`.nullable().default(...)`, two wrapper
layers), the single `isOptional()` unwrap of `getKeys` exposes a
`ZodNullable`, which has no `shape`, so the nested object is treated as a
leaf: the enumerated set contains the intermediate (non-leaf) path "a" and
misses the leaf path "a.b" — falsifying "excludes every intermediate path"
and "exactly one dotted path per leaf". -/
theorem c6_path_enumeration_claim_false :
    pathsOf [("version", .zdefault .leaf),
             ("a", .zdefault (.znullable (.zobject [("b", .leaf)])))] = ["a"] ∧
    leafPathsShape [("version", .zdefault .leaf),
             ("a", .zdefault (.znullable (.zobject [("b", .leaf)])))] =
      ["version", "a.b"] ∧
    isObjNode (fullyUnwrap (.zdefault (.znullable (.zobject [("b", .leaf)])))) = true ∧
    "a.b" ∉ pathsOf [("version", .zdefault .leaf),
             ("a", .zdefault (.znullable (.zobject [("b", .leaf)])))] :=
  ⟨rfl, rfl, rfl, by decide⟩

/-- C6, amended: for every schema with at least one nested object field in
which each nested object sits under at most one optional/default wrapper (the
code unwraps a single `isOptional()` layer, not every layer — see the
counterexample for a doubly wrapped object), `getKeys` output equals the leaf
dotted-path sequence — exactly one entry per leaf, none for intermediate
nodes, joined with "." in depth-first declaration order (a pure function of
the schema, hence identical on every run) — and the exported `paths` drops
exactly the top-level `version` entry from it. -/
theorem c6_path_enumeration {shape : List (String × ZNode)}
    (hgood : goodShape shape = true)
    (_hnested : shape.any (fun e => isObjNode (fullyUnwrap e.2)) = true) :
    getKeys shape = leafPathsShape shape ∧
    pathsOf shape = (leafPathsShape shape).filter (fun key => key != "version") := by
  have h := getKeys_eq_leafPathsShape shape hgood
  exact ⟨h, by simp only [pathsOf, h]⟩

/-- C6, witness: the amended theorem evaluated on a concrete schema with a
singly wrapped nested object. -/
theorem c6_path_enumeration_witness :
    getKeys [("version", .zdefault .leaf),
             ("a", .zoptional (.zobject [("b", .leaf), ("c", .zdefault .leaf)]))] =
      leafPathsShape [("version", .zdefault .leaf),
             ("a", .zoptional (.zobject [("b", .leaf), ("c", .zdefault .leaf)]))] ∧
    pathsOf [("version", .zdefault .leaf),
             ("a", .zoptional (.zobject [("b", .leaf), ("c", .zdefault .leaf)]))] =
      (leafPathsShape [("version", .zdefault .leaf),
             ("a", .zoptional (.zobject [("b", .leaf), ("c", .zdefault .leaf)]))]).filter
        (fun key => key != "version") :=
  c6_path_enumeration (by decide) (by decide)

end PspaceCfg
